import Mathlib

/-!
Shallow embedding of the sntools event generator (channel.py) and the
nu_e + 12C interaction channel (sntools/interaction_channels/c12e.py).

Python floats are modelled by exact rationals (ℚ); the trigonometric
direction computation is modelled over the reals (ℝ).  Calls to
`random.random()` are modelled by explicit streams `ℕ → ℚ` of draws in
[0, 1).  External library calls (scipy integration, numpy Poisson draws)
and the flux module are abstracted as parameters of the definitions that
consume their results.
-/

namespace channel

/-! ### rejection_sample (channel.py, lines 89-115) -/

/-- Indices visited by the coarse pass `for j in range(0, n_bins, 10)`. -/
def coarseIdx (n_bins : ℕ) : List ℕ :=
  (List.range ((n_bins + 9) / 10)).map (fun k => k * 10)

/-- Indices visited by the fine pass
`for j in range(max(j_max-9, 0), min(j_max+10, n_bins))`.
Natural subtraction `j_max - 9` is exactly Python's `max(j_max-9, 0)`. -/
def fineIdx (j_max n_bins : ℕ) : List ℕ :=
  (List.range (min (j_max + 10) n_bins - (j_max - 9))).map (fun k => (j_max - 9) + k)

/-- One step of the coarse pass: evaluate `dist` at the cell center and
update the running maximum and its index (`if p > p_max: p_max = p; j_max = j`). -/
def coarseStep (dist : ℚ → ℚ) (min_val bin_width : ℚ) (acc : ℚ × ℕ) (j : ℕ) : ℚ × ℕ :=
  let p := dist (min_val + bin_width * ((j : ℚ) + 1/2))
  if acc.1 < p then (p, j) else acc

/-- The coarse pass, starting from `p_max = 0`, `j_max = 0`. -/
def coarseScan (dist : ℚ → ℚ) (min_val bin_width : ℚ) (n_bins : ℕ) : ℚ × ℕ :=
  (coarseIdx n_bins).foldl (coarseStep dist min_val bin_width) (0, 0)

/-- One step of the fine pass: only the running maximum is updated
(`if p > p_max: p_max = p`). -/
def fineStep (dist : ℚ → ℚ) (min_val bin_width : ℚ) (p : ℚ) (j : ℕ) : ℚ :=
  let q := dist (min_val + bin_width * ((j : ℚ) + 1/2))
  if p < q then q else p

/-- The estimated maximum `p_max` of `dist` after the coarse and fine passes
of `rejection_sample`.  `bin_width = float(max_val - min_val) / n_bins`. -/
def p_max (dist : ℚ → ℚ) (min_val max_val : ℚ) (n_bins : ℕ) : ℚ :=
  let bin_width := (max_val - min_val) / (n_bins : ℚ)
  let c := coarseScan dist min_val bin_width n_bins
  (fineIdx c.2 n_bins).foldl (fineStep dist min_val bin_width) c.1

/-- The candidate value drawn at loop iteration `k`:
`val = min_val + (max_val - min_val) * random.random()`, the draw being
`u1 k`. -/
def sampleVal (min_val max_val : ℚ) (u1 : ℕ → ℚ) (k : ℕ) : ℚ :=
  min_val + (max_val - min_val) * u1 k

/-- The acceptance test of iteration `k` of the rejection loop:
`p_max * random.random() < dist(val)`, the second draw being `u2 k`. -/
def accepts (dist : ℚ → ℚ) (min_val max_val : ℚ) (n_bins : ℕ)
    (u1 u2 : ℕ → ℚ) (k : ℕ) : Prop :=
  p_max dist min_val max_val n_bins * u2 k < dist (sampleVal min_val max_val u1 k)

instance decAccepts (dist : ℚ → ℚ) (min_val max_val : ℚ) (n_bins : ℕ)
    (u1 u2 : ℕ → ℚ) (k : ℕ) :
    Decidable (accepts dist min_val max_val n_bins u1 u2 k) :=
  inferInstanceAs
    (Decidable (p_max dist min_val max_val n_bins * u2 k <
      dist (sampleVal min_val max_val u1 k)))

/-- `rejection_sample(dist, min_val, max_val, n_bins)`: the value returned by
the first accepted iteration of the `while True` loop.  The loop has no
iteration cap, so the function is defined only on the hypothesis that some
iteration accepts. -/
def rejection_sample (dist : ℚ → ℚ) (min_val max_val : ℚ) (n_bins : ℕ)
    (u1 u2 : ℕ → ℚ)
    (h : ∃ k, accepts dist min_val max_val n_bins u1 u2 k) : ℚ :=
  sampleVal min_val max_val u1 (Nat.find h)

/-! ### main: time binning and the event-writing loop (channel.py, lines 131-167) -/

/-- Python's `int()` applied to a real number: truncation toward zero. -/
def pyInt (q : ℚ) : ℤ :=
  if 0 ≤ q then ⌊q⌋ else ⌈q⌉

/-- `bin_width = 1  # bin width in ms` in `main`. -/
def main_bin_width : ℚ := 1

/-- `n_bins = int(duration/bin_width)` in `main`. -/
def n_bins_main (duration : ℚ) : ℤ :=
  pyInt (duration / main_bin_width)

/-- `boundsMin = starttime + i * bin_width`. -/
def boundsMin (starttime bin_width : ℚ) (i : ℕ) : ℚ :=
  starttime + (i : ℚ) * bin_width

/-- `boundsMax = starttime + (i+1) * bin_width`. -/
def boundsMax (starttime bin_width : ℚ) (i : ℕ) : ℚ :=
  starttime + ((i : ℚ) + 1) * bin_width

/-- `t = boundsMin + random.random() * bin_width`, the draw being `r`. -/
def eventTime (starttime bin_width : ℚ) (i : ℕ) (r : ℚ) : ℚ :=
  boundsMin starttime bin_width i + r * bin_width

/-- One output line `t, pid, ene, dirx, diry, dirz` written for each event. -/
structure OutLine where
  t : ℚ
  pid : ℤ
  ene : ℚ
  dirx : ℚ
  diry : ℚ
  dirz : ℚ

/-- The lines written for bin `i`: the inner loop
`for _ in range(binned_nevt[i])` writes one line per iteration.  The
per-event kinematics (time draw, `get_eNu`, `get_direction`, `get_eE`) are
abstracted into `mk i j`, the line written for event `j` of bin `i`. -/
def binEvents (binned_nevt : ℕ → ℕ) (mk : ℕ → ℕ → OutLine) (i : ℕ) : List OutLine :=
  (List.range (binned_nevt i)).map (mk i)

/-- All lines written by `main`: the outer loop `for i in range(n_bins)`
concatenates the per-bin blocks; nothing is written outside the loops. -/
def writeEvents (n_bins : ℕ) (binned_nevt : ℕ → ℕ) (mk : ℕ → ℕ → OutLine) :
    List OutLine :=
  (List.range n_bins).flatMap (binEvents binned_nevt mk)

/-! ### get_direction (channel.py, lines 124-129), over ℝ -/

/-- The deterministic core of `get_direction`: given the sampled `cosT` and
the uniformly drawn azimuth `phi`, return
`(sinT*cos(phi), sinT*sin(phi), cosT)` with `sinT = sin(acos(cosT))`. -/
noncomputable def get_direction (cosT phi : ℝ) : ℝ × ℝ × ℝ :=
  let sinT := Real.sin (Real.arccos cosT)
  (sinT * Real.cos phi, sinT * Real.sin phi, cosT)

/-- Euclidean norm of a 3-vector. -/
noncomputable def norm3 (v : ℝ × ℝ × ℝ) : ℝ :=
  Real.sqrt (v.1 ^ 2 + v.2.1 ^ 2 + v.2.2 ^ 2)

/-! ### preparation section: from parse_input output to the interpolator
(channel.py, lines 37 and 71-81) -/

/-- Errors in the preparation phase.  `dataInsufficientPrecheck` is the
error the specification describes for an explicit sample-count pre-check;
`pchipTooFewSamples` is the failure arising inside the interpolation
routine itself. -/
inductive PrepError where
  | dataInsufficientPrecheck
  | pchipTooFewSamples
deriving DecidableEq

/-- Modelled from the spec: `interpolate.pchip` (scipy, not part of this
repository) builds a shape-preserving interpolant and fails if fewer than
2 samples are provided (spec section 4.2).  Modelled as returning the data
the interpolant is built from. -/
def pchip (times rates : List ℚ) : Except PrepError (List ℚ × List ℚ) :=
  if times.length < 2 then Except.error PrepError.pchipTooFewSamples
  else Except.ok (times, rates)

/-- `main` between `parse_input` and the interpolator: it maps each raw
time to its integrated event rate (`simnevt`, abstracted as a function
parameter since it calls scipy quadrature) and passes the lists straight to
`interpolate.pchip`.  There is no sample-count check in between. -/
def mainPrep (raw_times : List ℚ) (simnevt : ℚ → ℚ) :
    Except PrepError (List ℚ × List ℚ) :=
  pchip raw_times (raw_times.map simnevt)

/-! ### concrete streams used to exercise the rejection sampler -/

/-- A constant density, used as a concrete input. -/
def d0 : ℚ → ℚ := fun _ => 1

/-- A constant stream of draws, value 1/2. -/
def s1 : ℕ → ℚ := fun _ => 1/2

/-- A second constant stream of draws, value 1/2. -/
def s2 : ℕ → ℚ := fun _ => 1/2

end channel

namespace c12e

/-! ### sntools/interaction_channels/c12e.py -/

/-- Energy threshold of the reaction, in MeV. -/
def e_thr : ℚ := 17.338

/-- Width parameter approximating the DiracDelta distribution. -/
def epsilon : ℚ := 0.001

/-- `get_eE(eNu, cosT=0) = eNu - e_thr`: energy of the outgoing particle. -/
def get_eE (eNu : ℚ) (_cosT : ℚ := 0) : ℚ :=
  eNu - e_thr

/-- `bounds_eE(eNu) = [get_eE(eNu) - epsilon, get_eE(eNu) + epsilon]`. -/
def bounds_eE (eNu : ℚ) : ℚ × ℚ :=
  (get_eE eNu - epsilon, get_eE eNu + epsilon)

/-- `bounds_eNu = [e_thr + 0.8, 100]`. -/
def bounds_eNu : ℚ × ℚ :=
  (e_thr + 0.8, 100)

/-- `sigma0 = 3.439E-44 * (5.067731E10)**2` (cm^2 converted to MeV^-2). -/
def sigma0 : ℚ := 3.439e-44 * (5.067731e10) ^ 2

/-- `dSigma_dE(eNu, eE)`: differential cross section.  Returns 0 when
`abs(get_eE(eNu) - eE) > epsilon`; otherwise the fitted cubic divided by
`2*epsilon`.  Total on all of ℚ × ℚ: no input raises. -/
def dSigma_dE (eNu eE : ℚ) : ℚ :=
  if epsilon < |get_eE eNu - eE| then 0
  else sigma0 * (10.164 * (eNu - e_thr) + (-0.4666) * (eNu - e_thr) ^ 2 +
    0.0546 * (eNu - e_thr) ^ 3) / (2 * epsilon)

/-- `dSigma_dCosT(eNu, cosT)`: angular distribution, constant 0.5 on
[-1, 1] and 0 outside. -/
def dSigma_dCosT (_eNu cosT : ℚ) : ℚ :=
  if 1 < |cosT| then 0 else 0.5

end c12e

namespace channel

/-! ### Helper lemmas -/

/-- Length of a flatMap is the sum of the lengths of the blocks. -/
theorem length_flatMap_eq_sum (l : List ℕ) (f : ℕ → List OutLine) :
    (l.flatMap f).length = (l.map (fun i => (f i).length)).sum := by
  induction l with
  | nil => rfl
  | cons a as ih => simp [List.flatMap_cons, ih]

/-- The coarse pass never updates its accumulator when the density is
identically zero and the running maximum is already non-negative. -/
theorem foldl_coarseStep_zero (min_val bw : ℚ) (l : List ℕ) (acc : ℚ × ℕ)
    (h : 0 ≤ acc.1) :
    l.foldl (coarseStep (fun _ => 0) min_val bw) acc = acc := by
  induction l generalizing acc with
  | nil => rfl
  | cons j js ih =>
    have hstep : coarseStep (fun _ => 0) min_val bw acc j = acc := by
      unfold coarseStep
      rw [if_neg (not_lt.mpr h)]
    rw [List.foldl_cons, hstep]
    exact ih acc h

/-- The fine pass never updates its accumulator when the density is
identically zero and the running maximum is already non-negative. -/
theorem foldl_fineStep_zero (min_val bw : ℚ) (l : List ℕ) (p : ℚ) (h : 0 ≤ p) :
    l.foldl (fineStep (fun _ => 0) min_val bw) p = p := by
  induction l generalizing p with
  | nil => rfl
  | cons j js ih =>
    have hstep : fineStep (fun _ => 0) min_val bw p j = p := by
      unfold fineStep
      rw [if_neg (not_lt.mpr h)]
    rw [List.foldl_cons, hstep]
    exact ih p h

/-- For the constant density `d0 = 1` the coarse-then-fine scan finds the
exact maximum 1. -/
theorem pmaxConst : p_max d0 0 2 10 = 1 := by
  norm_num [p_max, coarseScan, coarseIdx, fineIdx, coarseStep, fineStep, d0,
    List.range_succ]

/-- The constant density `d0 = 1` is accepted at the very first iteration of
the rejection loop with the constant streams `s1`, `s2`. -/
theorem acceptsConst : accepts d0 0 2 10 s1 s2 0 := by
  unfold accepts
  rw [pmaxConst]
  norm_num [d0, s1, s2, sampleVal]

/-- Some iteration of the rejection loop accepts for the constant density. -/
theorem acceptsConstEx : ∃ k, accepts d0 0 2 10 s1 s2 k := ⟨0, acceptsConst⟩

/-! ### Claim theorems -/

/-- Claim C1: the number of lines written by `main` equals the sum over all
time bins of the Poisson-sampled event count `binned_nevt`, exactly
`binned_nevt i` lines being written for bin `i` and none outside the
per-bin loops. -/
theorem writeEvents_length (n : ℕ) (binned_nevt : ℕ → ℕ) (mk : ℕ → ℕ → OutLine) :
    (writeEvents n binned_nevt mk).length = ((List.range n).map binned_nevt).sum ∧
    ∀ i, (binEvents binned_nevt mk i).length = binned_nevt i := by
  constructor
  · rw [writeEvents, length_flatMap_eq_sum]
    congr 1
    simp [binEvents]
  · intro i
    simp [binEvents]

/-- Claim C2: `rejection_sample` returns the value of the first accepted
iteration of the rejection loop; that value lies in `[min_val, max_val]`
(given draws in `[0, 1)`), the accepting draw satisfies
`p_max * u < dist(val)` with `p_max` the estimate produced by the
coarse-then-fine scan, and no earlier iteration accepts. -/
theorem rejection_sample_spec (dist : ℚ → ℚ) (min_val max_val : ℚ) (n_bins : ℕ)
    (u1 u2 : ℕ → ℚ)
    (h : ∃ k, accepts dist min_val max_val n_bins u1 u2 k)
    (hb : min_val ≤ max_val) (hu : ∀ k, 0 ≤ u1 k ∧ u1 k < 1) :
    min_val ≤ rejection_sample dist min_val max_val n_bins u1 u2 h ∧
    rejection_sample dist min_val max_val n_bins u1 u2 h ≤ max_val ∧
    p_max dist min_val max_val n_bins * u2 (Nat.find h) <
      dist (rejection_sample dist min_val max_val n_bins u1 u2 h) ∧
    ∀ j, j < Nat.find h → ¬ accepts dist min_val max_val n_bins u1 u2 j := by
  obtain ⟨h0, h1⟩ := hu (Nat.find h)
  have hd : 0 ≤ max_val - min_val := by linarith
  have hmul0 : 0 ≤ (max_val - min_val) * u1 (Nat.find h) := mul_nonneg hd h0
  have hmul1 : (max_val - min_val) * u1 (Nat.find h) ≤ max_val - min_val :=
    mul_le_of_le_one_right hd (le_of_lt h1)
  refine ⟨?_, ?_, Nat.find_spec h, fun j hj => Nat.find_min h hj⟩
  · show min_val ≤ sampleVal min_val max_val u1 (Nat.find h)
    unfold sampleVal
    linarith
  · show sampleVal min_val max_val u1 (Nat.find h) ≤ max_val
    unfold sampleVal
    linarith

/-- Witness for C2 at a concrete density and concrete streams. -/
theorem rejection_sample_spec_witness :
    (0:ℚ) ≤ rejection_sample d0 0 2 10 s1 s2 acceptsConstEx ∧
    rejection_sample d0 0 2 10 s1 s2 acceptsConstEx ≤ 2 ∧
    p_max d0 0 2 10 * s2 (Nat.find acceptsConstEx) <
      d0 (rejection_sample d0 0 2 10 s1 s2 acceptsConstEx) ∧
    ∀ j, j < Nat.find acceptsConstEx → ¬ accepts d0 0 2 10 s1 s2 j :=
  rejection_sample_spec d0 0 2 10 s1 s2 acceptsConstEx (by norm_num)
    (fun k => by constructor <;> norm_num [s1])

/-- Claim C3: every event time generated inside bin `i` satisfies
`boundsMin <= t < boundsMax`, where `t = boundsMin + r * bin_width` for a
uniform draw `r` in `[0, 1)`. -/
theorem eventTime_in_bin (starttime bin_width : ℚ) (i : ℕ) (r : ℚ)
    (h0 : 0 ≤ r) (h1 : r < 1) (hw : 0 < bin_width) :
    boundsMin starttime bin_width i ≤ eventTime starttime bin_width i r ∧
    eventTime starttime bin_width i r < boundsMax starttime bin_width i := by
  unfold eventTime boundsMin boundsMax
  constructor
  · nlinarith [mul_nonneg h0 hw.le]
  · nlinarith [mul_pos (sub_pos.mpr h1) hw]

/-- Witness for C3 at bin 0 of a window starting at 0 with unit bins. -/
theorem eventTime_in_bin_witness :
    boundsMin 0 1 0 ≤ eventTime 0 1 0 (1/2) ∧
    eventTime 0 1 0 (1/2) < boundsMax 0 1 0 :=
  eventTime_in_bin 0 1 0 (1/2) (by norm_num) (by norm_num) (by norm_num)

/-- Claim C4: with `bin_width = 1`, the number of bins is
`floor(duration / bin_width)` (the partial trailing interval is dropped);
when `starttime = endtime` there are 0 bins, no lines are written, and the
(total) model raises no error. -/
theorem n_bins_main_floor (starttime endtime : ℚ) (h : starttime ≤ endtime)
    (binned_nevt : ℕ → ℕ) (mk : ℕ → ℕ → OutLine) :
    n_bins_main (endtime - starttime) = ⌊(endtime - starttime) / main_bin_width⌋ ∧
    (starttime = endtime →
      n_bins_main (endtime - starttime) = 0 ∧
      writeEvents (n_bins_main (endtime - starttime)).toNat binned_nevt mk = []) := by
  have hd : 0 ≤ endtime - starttime := by linarith
  have hq : 0 ≤ (endtime - starttime) / main_bin_width := by
    unfold main_bin_width
    simpa using hd
  constructor
  · unfold n_bins_main pyInt
    rw [if_pos hq]
  · intro he
    have h0 : endtime - starttime = 0 := by rw [he, sub_self]
    rw [h0]
    have hz : n_bins_main 0 = 0 := by simp [n_bins_main, pyInt, main_bin_width]
    refine ⟨hz, ?_⟩
    rw [hz]
    rfl

/-- Witness for C4: the degenerate window `starttime = endtime = 0`. -/
theorem n_bins_main_floor_witness :
    n_bins_main ((0:ℚ) - 0) = ⌊((0:ℚ) - 0) / main_bin_width⌋ ∧
    ((0:ℚ) = 0 →
      n_bins_main ((0:ℚ) - 0) = 0 ∧
      writeEvents (n_bins_main ((0:ℚ) - 0)).toNat (fun _ => 0)
        (fun _ _ => ⟨0, 0, 0, 0, 0, 0⟩) = []) :=
  n_bins_main_floor 0 0 (le_refl 0) (fun _ => 0) (fun _ _ => ⟨0, 0, 0, 0, 0, 0⟩)

/-- Claim C5: every direction vector produced by `get_direction` has unit
Euclidean norm, for every `cosT` in `[-1, 1]` and `phi` in `[0, 2*pi)`. -/
theorem get_direction_unit (cosT phi : ℝ) (hm : -1 ≤ cosT) (hM : cosT ≤ 1)
    (hp0 : 0 ≤ phi) (hp1 : phi < 2 * Real.pi) :
    norm3 (get_direction cosT phi) = 1 := by
  have hnn : (0:ℝ) ≤ 1 - cosT ^ 2 := by nlinarith
  have hs : Real.sin (Real.arccos cosT) = Real.sqrt (1 - cosT ^ 2) :=
    Real.sin_arccos cosT
  have hsq : Real.sqrt (1 - cosT ^ 2) ^ 2 = 1 - cosT ^ 2 := Real.sq_sqrt hnn
  have hpy := Real.sin_sq_add_cos_sq phi
  unfold norm3 get_direction
  simp only [hs]
  have hexp : (Real.sqrt (1 - cosT ^ 2) * Real.cos phi) ^ 2 +
      (Real.sqrt (1 - cosT ^ 2) * Real.sin phi) ^ 2 + cosT ^ 2 = 1 := by
    nlinarith [hsq, hpy]
  rw [hexp, Real.sqrt_one]

/-- Witness for C5 at `cosT = 0`, `phi = 0`. -/
theorem get_direction_unit_witness : norm3 (get_direction 0 0) = 1 :=
  get_direction_unit 0 0 (by norm_num) (by norm_num) (le_refl 0) (by positivity)

/-- Counterexample to C6 as stated: with a single time sample, `main`
performs no sample-count pre-check; the failure is the one arising inside
the interpolation routine (`pchip`), not a pre-check error. -/
theorem mainPrep_no_precheck_cex :
    mainPrep [0] (fun _ => 1) = Except.error PrepError.pchipTooFewSamples ∧
    mainPrep [0] (fun _ => 1) ≠ Except.error PrepError.dataInsufficientPrecheck :=
  ⟨rfl, by simp [mainPrep, pchip]⟩

/-- Claim C6 (amended): when `parse_input` yields fewer than 2 time samples,
the failure arises inside the interpolation routine (`pchip`); `main` has no
explicit pre-check of the sample count and produces no dedicated
DataInsufficient error. -/
theorem mainPrep_error_from_pchip (raw_times : List ℚ) (simnevt : ℚ → ℚ)
    (h : raw_times.length < 2) :
    mainPrep raw_times simnevt = Except.error PrepError.pchipTooFewSamples ∧
    mainPrep raw_times simnevt ≠ Except.error PrepError.dataInsufficientPrecheck := by
  have he : mainPrep raw_times simnevt = Except.error PrepError.pchipTooFewSamples := by
    unfold mainPrep pchip
    rw [if_pos h]
  refine ⟨he, ?_⟩
  rw [he]
  simp

/-- Witness for the amended C6 at the empty sample list. -/
theorem mainPrep_error_from_pchip_witness :
    mainPrep [] (fun _ => 0) = Except.error PrepError.pchipTooFewSamples ∧
    mainPrep [] (fun _ => 0) ≠ Except.error PrepError.dataInsufficientPrecheck :=
  mainPrep_error_from_pchip [] (fun _ => 0) (by decide)

/-- Claim C8: for a density identically zero on the interval, the estimated
maximum `p_max` is 0, the acceptance test fails at every iteration of the
rejection loop, and hence the loop never terminates; the embedding contains
no iteration cap or diagnostic escape. -/
theorem rejection_sample_zero_dist (min_val max_val : ℚ) (n_bins : ℕ)
    (u1 u2 : ℕ → ℚ) :
    p_max (fun _ => 0) min_val max_val n_bins = 0 ∧
    (∀ k, ¬ accepts (fun _ => 0) min_val max_val n_bins u1 u2 k) ∧
    ¬ ∃ k, accepts (fun _ => 0) min_val max_val n_bins u1 u2 k := by
  have hc : coarseScan (fun _ => 0) min_val ((max_val - min_val) / (n_bins : ℚ))
      n_bins = (0, 0) := by
    unfold coarseScan
    exact foldl_coarseStep_zero _ _ _ _ (le_refl 0)
  have hpm : p_max (fun _ => 0) min_val max_val n_bins = 0 := by
    simp only [p_max, hc]
    exact foldl_fineStep_zero _ _ _ _ (le_refl 0)
  have hacc : ∀ k, ¬ accepts (fun _ => 0) min_val max_val n_bins u1 u2 k := by
    intro k hk
    unfold accepts at hk
    rw [hpm, zero_mul] at hk
    exact lt_irrefl 0 hk
  exact ⟨hpm, hacc, fun ⟨k, hk⟩ => hacc k hk⟩

end channel

namespace c12e

/-- Claim C7: `dSigma_dE` is total and returns 0 for every physically
disallowed energy combination, i.e. whenever `|eE - (eNu - e_thr)| > epsilon`. -/
theorem dSigma_dE_zero_outside (eNu eE : ℚ) (h : epsilon < |eE - (eNu - e_thr)|) :
    dSigma_dE eNu eE = 0 := by
  have hc : epsilon < |get_eE eNu - eE| := by
    unfold get_eE
    rwa [abs_sub_comm (eNu - e_thr) eE]
  unfold dSigma_dE
  rw [if_pos hc]

/-- Witness for C7: `eNu = 20`, `eE = 0` is far outside the allowed band. -/
theorem dSigma_dE_zero_outside_witness : dSigma_dE 20 0 = 0 :=
  dSigma_dE_zero_outside 20 0 (by
    rw [abs_sub_comm, abs_of_nonneg (by norm_num [e_thr] : (0:ℚ) ≤ 20 - e_thr - 0)]
    norm_num [epsilon, e_thr])

/-- Claim C9: for every `eNu >= e_thr` and every `eE`, the density
`dSigma_dE eNu eE` is non-negative, since the fitted cubic is non-negative
for `x = eNu - e_thr >= 0`. -/
theorem dSigma_dE_nonneg (eNu eE : ℚ) (h : e_thr ≤ eNu) :
    0 ≤ dSigma_dE eNu eE := by
  unfold dSigma_dE
  split
  · exact le_refl 0
  · have hx : 0 ≤ eNu - e_thr := sub_nonneg.mpr h
    have hcube : 0 ≤ 10.164 * (eNu - e_thr) + (-0.4666) * (eNu - e_thr) ^ 2 +
        0.0546 * (eNu - e_thr) ^ 3 := by
      nlinarith [mul_nonneg hx (sq_nonneg (eNu - e_thr - 2333/546)), hx]
    have hs : (0:ℚ) ≤ sigma0 := by norm_num [sigma0]
    have he : (0:ℚ) < 2 * epsilon := by norm_num [epsilon]
    exact div_nonneg (mul_nonneg hs hcube) he.le

/-- Witness for C9 at `eNu = 20 >= e_thr`, `eE = 5`. -/
theorem dSigma_dE_nonneg_witness : 0 ≤ dSigma_dE 20 5 :=
  dSigma_dE_nonneg 20 5 (by norm_num [e_thr])

/-- Claim C10: the outgoing-particle energy is independent of the emission
direction, equals `eNu - e_thr`, and lies inside the declared kinematic
bounds `bounds_eE eNu`. -/
theorem get_eE_independent (eNu cosT1 cosT2 : ℚ) :
    get_eE eNu cosT1 = get_eE eNu cosT2 ∧
    get_eE eNu cosT1 = eNu - e_thr ∧
    (bounds_eE eNu).1 ≤ get_eE eNu cosT1 ∧
    get_eE eNu cosT1 ≤ (bounds_eE eNu).2 := by
  refine ⟨rfl, rfl, ?_, ?_⟩ <;> norm_num [bounds_eE, get_eE, epsilon]

end c12e
